import Mathlib

/-!
# Verification of the micr-AI extraction pipeline

A shallow embedding, in Lean 4, of the data-shaping pipeline of the micr-AI
repository: the entity normalizer (`extraction.ts`: `entitySchema`,
`extractionSchema`, `extractEntitiesFromText`), the record builder
(`buildExtractionRecord`), the history loader (`storage.ts`:
`loadStoredRecords`) and the export encoder (`download.ts`:
`downloadRecordAsJson`, `downloadRecordAsCsv`).

Modelling conventions:
* Untrusted JSON values (the model response, persisted storage blobs) are
  embedded as the inductive `Json` below.  JavaScript numbers (IEEE float64)
  are modelled as rationals; the code only compares them with 0 and 1 and
  converts small integers to strings, where the two agree.
* JavaScript's `JSON.parse` builtin is modelled by the executable, fuelled
  recursive-descent parser `jsonParse` (faithful to the JSON grammar except
  that `\uXXXX` escapes denoting lone surrogates, which no claim exercises,
  are rejected).
* JavaScript strings are Lean `String`s; for the one operation whose
  behaviour depends on the UTF-16 representation (`String.prototype.slice`),
  we work on the explicit UTF-16 code-unit list produced by `utf16Encode`.
* Fallible code is embedded in `Except String` / `Option`; a thrown
  JavaScript error is an `Except.error`.
-/

/-- A JSON value, as produced by `JSON.parse`.  Numbers are modelled as
rationals (see the header comment).  Object fields are kept as an ordered
association list; JavaScript property lookup after `JSON.parse` sees the
*last* binding of a duplicated key, which `lookupLast` reproduces. -/
inductive Json where
  | null : Json
  | bool (b : Bool) : Json
  | num (q : ℚ) : Json
  | str (s : String) : Json
  | arr (elems : List Json) : Json
  | obj (fields : List (String × Json)) : Json

/-- JavaScript property lookup on an object literal built from an ordered
field list: a later duplicate overwrites an earlier one. -/
def lookupLast (k : String) : List (String × Json) → Option Json
  | [] => none
  | (k2, v) :: rest =>
    match lookupLast k rest with
    | some r => some r
    | none => if k2 = k then some v else none

/-- `j.getField k` is the JavaScript property access `j[k]` (restricted to
object values; anything else yields `undefined`, i.e. `none`). -/
def Json.getField : Json → String → Option Json
  | .obj fields, k => lookupLast k fields
  | _, _ => none

theorem getField_some_obj {j : Json} {k : String} {v : Json}
    (h : j.getField k = some v) : ∃ fields, j = Json.obj fields := by
  cases j <;> simp [Json.getField] at h ⊢

/-- `Json.isArr` mirrors JavaScript's `Array.isArray`. -/
def Json.isArr : Json → Bool
  | .arr _ => true
  | _ => false

/-! ## A model of the `JSON.parse` builtin

The repository calls the JavaScript `JSON.parse` builtin in two places
(`extraction.ts` on the model's message content, `storage.ts` on the
persisted history blob).  The builtin is external to the repository; it is
modelled here by an executable recursive-descent parser for the JSON
grammar (ECMA-404), fuelled to make termination structural. -/

/-- JSON insignificant whitespace. -/
def isJsonWs (c : Char) : Bool :=
  c = ' ' || c = '\t' || c = '\n' || c = '\r'

def skipWs : List Char → List Char
  | [] => []
  | c :: cs => if isJsonWs c then skipWs cs else c :: cs

def hexVal (c : Char) : Option Nat :=
  if '0' ≤ c ∧ c ≤ '9' then some (c.toNat - 48)
  else if 'a' ≤ c ∧ c ≤ 'f' then some (c.toNat - 87)
  else if 'A' ≤ c ∧ c ≤ 'F' then some (c.toNat - 55)
  else none

/-- Body of a JSON string literal, after the opening quote: returns the
decoded characters and the input remaining after the closing quote.
`\uXXXX` escapes in the surrogate range (which denote lone UTF-16 surrogates
in JavaScript and are exercised by no claim) are rejected. -/
def parseStrCharsF : Nat → List Char → Option (List Char × List Char)
  | 0, _ => none
  | _ + 1, [] => none
  | fuel + 1, c :: rest =>
    if c = '"' then some ([], rest)
    else if c = '\\' then
      match rest with
      | [] => none
      | e :: rest2 =>
        if e = '"' ∨ e = '\\' ∨ e = '/' then
          (parseStrCharsF fuel rest2).map (fun (out, r) => (e :: out, r))
        else if e = 'b' then
          (parseStrCharsF fuel rest2).map (fun (out, r) => (Char.ofNat 8 :: out, r))
        else if e = 'f' then
          (parseStrCharsF fuel rest2).map (fun (out, r) => (Char.ofNat 12 :: out, r))
        else if e = 'n' then
          (parseStrCharsF fuel rest2).map (fun (out, r) => ('\n' :: out, r))
        else if e = 'r' then
          (parseStrCharsF fuel rest2).map (fun (out, r) => ('\r' :: out, r))
        else if e = 't' then
          (parseStrCharsF fuel rest2).map (fun (out, r) => ('\t' :: out, r))
        else if e = 'u' then
          match rest2 with
          | h1 :: h2 :: h3 :: h4 :: rest3 =>
            match hexVal h1, hexVal h2, hexVal h3, hexVal h4 with
            | some a, some b, some c1, some d =>
              let code := ((a * 16 + b) * 16 + c1) * 16 + d
              if 0xD800 ≤ code ∧ code < 0xE000 then none
              else (parseStrCharsF fuel rest3).map
                (fun (out, r) => (Char.ofNat code :: out, r))
            | _, _, _, _ => none
          | _ => none
        else none
    else if c.toNat < 32 then none
    else (parseStrCharsF fuel rest).map (fun (out, r) => (c :: out, r))

/-- Body of a JSON string literal with its own length-derived fuel (the
fuel dominates the number of characters consumed). -/
def parseStrChars (cs : List Char) : Option (List Char × List Char) :=
  parseStrCharsF (cs.length + 1) cs

/-- Longest prefix of decimal digits, and the rest. -/
def takeDigits : List Char → List Char × List Char
  | [] => ([], [])
  | c :: cs =>
    if c.isDigit then
      let (ds, r) := takeDigits cs
      (c :: ds, r)
    else ([], c :: cs)

def digitsToNat (ds : List Char) : Nat :=
  ds.foldl (fun acc c => acc * 10 + (c.toNat - 48)) 0

/-- A JSON number literal (sign, integer part without leading zeros,
optional fraction, optional exponent), as a rational. -/
def parseNumber (cs : List Char) : Option (ℚ × List Char) :=
  let (neg, cs1) : Bool × List Char :=
    match cs with
    | '-' :: rest => (true, rest)
    | _ => (false, cs)
  match takeDigits cs1 with
  | ([], _) => none
  | (ds, cs2) =>
    if 1 < ds.length ∧ ds.headD '0' = '0' then none
    else
      let intPart : ℚ := (digitsToNat ds : ℚ)
      let fracState : Option (ℚ × List Char) :=
        match cs2 with
        | '.' :: cs3 =>
          match takeDigits cs3 with
          | ([], _) => none
          | (fds, cs4) =>
            some (intPart + (digitsToNat fds : ℚ) / ((10 : ℚ) ^ fds.length), cs4)
        | _ => some (intPart, cs2)
      match fracState with
      | none => none
      | some (base, cs5) =>
        let expState : Option (ℚ × List Char) :=
          match cs5 with
          | e :: cs6 =>
            if e = 'e' ∨ e = 'E' then
              let (eneg, cs7) : Bool × List Char :=
                match cs6 with
                | '-' :: rest => (true, rest)
                | '+' :: rest => (false, rest)
                | _ => (false, cs6)
              match takeDigits cs7 with
              | ([], _) => none
              | (eds, cs8) =>
                let m : ℤ := if eneg then -(digitsToNat eds : ℤ) else (digitsToNat eds : ℤ)
                some (base * (10 : ℚ) ^ m, cs8)
            else some (base, cs5)
          | [] => some (base, cs5)
        match expState with
        | none => none
        | some (v, cs9) => some (if neg then -v else v, cs9)

mutual

/-- A JSON value, fuelled recursive descent. -/
def parseValue : Nat → List Char → Option (Json × List Char)
  | 0, _ => none
  | Nat.succ fuel, cs =>
    match skipWs cs with
    | [] => none
    | c :: rest =>
      if c = '"' then
        match parseStrChars rest with
        | some (content, r) => some (Json.str (String.mk content), r)
        | none => none
      else if c = '[' then
        match skipWs rest with
        | ']' :: r => some (Json.arr [], r)
        | r2 =>
          match parseElems fuel r2 with
          | some (es, r) => some (Json.arr es, r)
          | none => none
      else if c = '{' then
        match skipWs rest with
        | '}' :: r => some (Json.obj [], r)
        | r2 =>
          match parseMembers fuel r2 with
          | some (fs, r) => some (Json.obj fs, r)
          | none => none
      else if c = 't' then
        match rest with
        | 'r' :: 'u' :: 'e' :: r => some (Json.bool true, r)
        | _ => none
      else if c = 'f' then
        match rest with
        | 'a' :: 'l' :: 's' :: 'e' :: r => some (Json.bool false, r)
        | _ => none
      else if c = 'n' then
        match rest with
        | 'u' :: 'l' :: 'l' :: r => some (Json.null, r)
        | _ => none
      else
        match parseNumber (c :: rest) with
        | some (q, r) => some (Json.num q, r)
        | none => none

/-- One or more comma-separated array elements followed by `]`. -/
def parseElems : Nat → List Char → Option (List Json × List Char)
  | 0, _ => none
  | Nat.succ fuel, cs =>
    match parseValue fuel cs with
    | none => none
    | some (j, r) =>
      match skipWs r with
      | ',' :: r2 =>
        match parseElems fuel r2 with
        | some (es, r3) => some (j :: es, r3)
        | none => none
      | ']' :: r2 => some ([j], r2)
      | _ => none

/-- One or more comma-separated object members followed by `\x7d`. -/
def parseMembers : Nat → List Char → Option (List (String × Json) × List Char)
  | 0, _ => none
  | Nat.succ fuel, cs =>
    match skipWs cs with
    | '"' :: rest =>
      match parseStrChars rest with
      | none => none
      | some (key, r) =>
        match skipWs r with
        | ':' :: r2 =>
          match parseValue fuel r2 with
          | none => none
          | some (v, r3) =>
            match skipWs r3 with
            | ',' :: r4 =>
              match parseMembers fuel r4 with
              | some (fs, r5) => some ((String.mk key, v) :: fs, r5)
              | none => none
            | '}' :: r4 => some ([(String.mk key, v)], r4)
            | _ => none
        | _ => none
    | _ => none

end

/-- Model of the JavaScript `JSON.parse` builtin: parse one value, allow
surrounding whitespace, reject trailing garbage.  The fuel `2 * length + 2`
dominates the recursion depth of any input of this length. -/
def jsonParse (s : String) : Option Json :=
  match parseValue (2 * s.length + 2) s.data with
  | some (j, rest) =>
    match skipWs rest with
    | [] => some j
    | _ :: _ => none
  | none => none

/-! ## Number-to-string and UTF-16 helpers -/

/-- Decimal digits of a positive natural, accumulator style. -/
def natDecAux : Nat → Nat → List Char → List Char
  | 0, _, acc => acc
  | _ + 1, 0, acc => acc
  | fuel + 1, n + 1, acc =>
    natDecAux fuel ((n + 1) / 10) (Char.ofNat (48 + (n + 1) % 10) :: acc)

/-- Decimal rendering of a natural number (the fuel `n` dominates the digit
count of any positive `n`). -/
def natDec (n : Nat) : String :=
  if n = 0 then "0" else String.mk (natDecAux n n [])

/-- Decimal rendering of an integer. -/
def intDec (i : ℤ) : String :=
  if i < 0 then "-" ++ natDec i.natAbs else natDec i.natAbs

/-- Model of the JavaScript `String(number)` builtin on the rationals that
stand in for float64 values: exact decimal notation for integral values
(the only values whose rendering any claim relies on); a non-integral value
is rendered as numerator, slash, denominator, standing in for the host's
shortest round-trip decimal. -/
def jsNumToString (q : ℚ) : String :=
  if q.den = 1 then intDec q.num else intDec q.num ++ "/" ++ natDec q.den

/-- UTF-16 code units of one Unicode scalar value. -/
def utf16Units (c : Char) : List Nat :=
  if c.toNat < 0x10000 then [c.toNat]
  else
    [0xD800 + (c.toNat - 0x10000) / 0x400, 0xDC00 + (c.toNat - 0x10000) % 0x400]

def utf16OfChars : List Char → List Nat
  | [] => []
  | c :: cs => utf16Units c ++ utf16OfChars cs

/-- The UTF-16 code-unit sequence of a string: the representation on which
JavaScript's index-based string operations (`String.prototype.slice`) act. -/
def utf16Encode (s : String) : List Nat :=
  utf16OfChars s.data

/-! ## The zod schema (`entitySchema`, `extractionSchema` in `extraction.ts`)

`safeParse` of the zod schemas is embedded as `Except`-valued parsers: zod
validation is all-or-nothing, so a document parse succeeds iff every field
of every entity validates.  A missing key and an explicit `null` both
collapse to `none` (the downstream code merges them with `?? null` and
truthiness tests, which cannot tell them apart). -/

/-- Output of `entitySchema.parse`: one validated, still-raw entity. -/
structure ParsedEntity where
  genus : Option String := none
  species : Option String := none
  subspecies : Option String := none
  serovar : Option String := none
  strain : Option String := none
  mlst_st : Option String := none
  taxonomy_id : Option (String ⊕ ℚ) := none
  source : Option String := none
  resistance : Option (List String ⊕ String) := none
  pathogenicity : Option String := none
  context : Option String := none
  confidence : Option ℚ := none
  note : Option String := none
deriving DecidableEq

/-- JavaScript whitespace, as removed by `String.prototype.trim` (ASCII
whitespace, no-break space, BOM and the Unicode line separators; exotic
Zs-category spaces are not exercised by any claim). -/
def isJsWsChar (c : Char) : Bool :=
  c = ' ' || c = '\t' || c = '\n' || c = '\r' || c = Char.ofNat 11 ||
    c = Char.ofNat 12 || c = Char.ofNat 0xA0 || c = Char.ofNat 0xFEFF ||
    c = Char.ofNat 0x2028 || c = Char.ofNat 0x2029

def dropLeadingWs : List Char → List Char
  | [] => []
  | c :: cs => if isJsWsChar c then dropLeadingWs cs else c :: cs

/-- The JavaScript `String.prototype.trim` builtin (also the semantics of
zod's `.trim()` transform): strip leading and trailing whitespace. -/
def jsTrim (s : String) : String :=
  String.mk ((dropLeadingWs (dropLeadingWs s.data.reverse).reverse))

/-- `z.string().trim().optional().nullable()` at key `k`. -/
def parseTrimmedStr (j : Json) (k : String) : Except String (Option String) :=
  match j.getField k with
  | none => .ok none
  | some .null => .ok none
  | some (.str s) => .ok (some (jsTrim s))
  | some _ => .error (k ++ ": expected string")

/-- `z.union([z.string(), z.number()]).optional().nullable()` at
`taxonomy_id`. -/
def parseTaxonomy (j : Json) : Except String (Option (String ⊕ ℚ)) :=
  match j.getField "taxonomy_id" with
  | none => .ok none
  | some .null => .ok none
  | some (.str s) => .ok (some (.inl s))
  | some (.num q) => .ok (some (.inr q))
  | some _ => .error "taxonomy_id: expected string or number"

/-- All-or-nothing traversal, the failure discipline of zod array
validation. -/
def mapE (f : α → Except String β) : List α → Except String (List β)
  | [] => .ok []
  | a :: as =>
    match f a with
    | .error e => .error e
    | .ok b =>
      match mapE f as with
      | .error e => .error e
      | .ok bs => .ok (b :: bs)

/-- `z.string()` on an array element. -/
def parseStrElem : Json → Except String String
  | .str s => .ok s
  | _ => .error "resistance: expected string element"

/-- `z.union([z.array(z.string()), z.string()]).optional().nullable()` at
`resistance`. -/
def parseResistance (j : Json) : Except String (Option (List String ⊕ String)) :=
  match j.getField "resistance" with
  | none => .ok none
  | some .null => .ok none
  | some (.arr xs) =>
    match mapE parseStrElem xs with
    | .error e => .error e
    | .ok ss => .ok (some (.inl ss))
  | some (.str s) => .ok (some (.inr s))
  | some _ => .error "resistance: expected array of strings or string"

/-- `z.object({ snippet: z.string() }).optional().nullable()` at `context`.
The downstream map keeps only `context?.snippet`. -/
def parseContext (j : Json) : Except String (Option String) :=
  match j.getField "context" with
  | none => .ok none
  | some .null => .ok none
  | some (.obj fields) =>
    match lookupLast "snippet" fields with
    | some (.str s) => .ok (some s)
    | some _ => .error "context.snippet: expected string"
    | none => .error "context.snippet: required"
  | some _ => .error "context: expected object"

/-- `z.number().min(0).max(1).optional().nullable()` at `confidence`:
an out-of-range number is rejected, never clamped. -/
def parseConfidence (j : Json) : Except String (Option ℚ) :=
  match j.getField "confidence" with
  | none => .ok none
  | some .null => .ok none
  | some (.num q) =>
    if q < 0 then .error "confidence: below 0"
    else if 1 < q then .error "confidence: above 1"
    else .ok (some q)
  | some _ => .error "confidence: expected number"

/-- `z.string().optional().nullable()` at `note` (no trim). -/
def parseNote (j : Json) : Except String (Option String) :=
  match j.getField "note" with
  | none => .ok none
  | some .null => .ok none
  | some (.str s) => .ok (some s)
  | some _ => .error "note: expected string"

/-- `entitySchema.parse`: a non-object is rejected; unknown keys are
ignored (zod strips them). -/
def parseEntity (j : Json) : Except String ParsedEntity :=
  match j with
  | .obj _ => do
    let genus ← parseTrimmedStr j "genus"
    let species ← parseTrimmedStr j "species"
    let subspecies ← parseTrimmedStr j "subspecies"
    let serovar ← parseTrimmedStr j "serovar"
    let strain ← parseTrimmedStr j "strain"
    let mlst ← parseTrimmedStr j "mlst_st"
    let taxonomy ← parseTaxonomy j
    let source ← parseTrimmedStr j "source"
    let resistance ← parseResistance j
    let pathogenicity ← parseTrimmedStr j "pathogenicity"
    let context ← parseContext j
    let confidence ← parseConfidence j
    let note ← parseNote j
    .ok ⟨genus, species, subspecies, serovar, strain, mlst, taxonomy, source,
      resistance, pathogenicity, context, confidence, note⟩
  | _ => .error "entity: expected object"

/-- The `summary` branch of `extractionSchema`:
`z.object({ key_findings: z.array(z.string()).default([]) }).default(...)`.
The value is validated and then discarded by the caller. -/
def parseSummary (j : Json) : Except String Unit :=
  match j.getField "summary" with
  | none => .ok ()
  | some (.obj fields) =>
    match lookupLast "key_findings" fields with
    | none => .ok ()
    | some (.arr xs) =>
      match mapE parseStrElem xs with
      | .error e => .error e
      | .ok _ => .ok ()
    | some _ => .error "summary.key_findings: expected array"
  | some _ => .error "summary: expected object"

/-- `extractionSchema.safeParse`: top level must be an object; a missing
`entities` key defaults to the empty list; the whole parse fails if any
entity fails. -/
def parseExtraction (j : Json) : Except String (List ParsedEntity) :=
  match j with
  | .obj _ => do
    let entities ←
      match j.getField "entities" with
      | none => Except.ok ([] : List ParsedEntity)
      | some (.arr es) => mapE parseEntity es
      | some _ => Except.error "entities: expected array"
    let _ ← parseSummary j
    .ok entities
  | _ => .error "extraction: expected object"

/-! ## The normalizer map (`extractEntitiesFromText`, lines 152-178)

After a successful schema parse, `extractEntitiesFromText` maps every
parsed entity to a `MicrobialEntity`, generating a fresh id per entity
(`crypto.randomUUID()`, an external source of identifiers modelled as a
supply `ids : Nat → String` indexed by position) and applying the coercion
rules of the source.  The raw `note` field is dropped: the output type has
no such field. -/

/-- The `MicrobialEntity` interface of `types/extraction.ts`.  Every field
except `id` is optional; `taxonomy_id` is a string even when the raw value
was numeric. -/
structure MicrobialEntity where
  id : String
  genus : Option String := none
  species : Option String := none
  subspecies : Option String := none
  serovar : Option String := none
  strain : Option String := none
  mlst_st : Option String := none
  taxonomy_id : Option String := none
  source : Option String := none
  resistance : Option (List String) := none
  pathogenicity : Option String := none
  context : Option String := none
  confidence : Option ℚ := none
deriving DecidableEq

/-- `entity.taxonomy_id ? String(entity.taxonomy_id) : null` on the parsed
union value: a falsy raw value (null, undefined, the number 0, the empty
string) yields null, anything else its string conversion. -/
def taxoNorm : Option (String ⊕ ℚ) → Option String
  | some (.inl s) => if s = "" then none else some s
  | some (.inr q) => if q = 0 then none else some (jsNumToString q)
  | none => none

/-- The `resistance` coercion of the map body:
`Array.isArray(rs) ? rs.filter(Boolean) : rs ? [rs].filter(Boolean) : []`. -/
def resNorm : Option (List String ⊕ String) → List String
  | some (.inl xs) => xs.filter (fun s => s ≠ "")
  | some (.inr s) => if s = "" then [] else [s]
  | none => []

/-- The per-entity body of the `.map` in `extractEntitiesFromText`: `id`
is the fresh identifier, the nullish-coalesced string fields pass through,
and the raw `note` field is dropped. -/
def normalizeEntity (id : String) (e : ParsedEntity) : MicrobialEntity :=
  { id := id
    genus := e.genus
    species := e.species
    subspecies := e.subspecies
    serovar := e.serovar
    strain := e.strain
    mlst_st := e.mlst_st
    taxonomy_id := taxoNorm e.taxonomy_id
    source := e.source
    resistance := some (resNorm e.resistance)
    pathogenicity := e.pathogenicity
    context := e.context
    confidence := e.confidence }

/-- The indexed map over the parsed entity list, threading the fresh-id
supply in input order. -/
def withIds (ids : Nat → String) : Nat → List ParsedEntity → List MicrobialEntity
  | _, [] => []
  | i, pe :: pes => normalizeEntity (ids i) pe :: withIds ids (i + 1) pes

/-- Validation plus normalization of a decoded model response: the
`extractionSchema.safeParse` call followed by the `.map` over
`parsed.data.entities` (a thrown error on failure). -/
def normalizeContent (ids : Nat → String) (content : Json) :
    Except String (List MicrobialEntity) :=
  match parseExtraction content with
  | .error e => .error e
  | .ok pes => .ok (withIds ids 0 pes)

/-- `json?.choices?.[0]?.message?.content`: optional-chained navigation of
the response envelope. -/
def contentRaw (envelope : Json) : Option Json :=
  match envelope.getField "choices" with
  | some (.arr (c0 :: _)) =>
    match c0.getField "message" with
    | some m => m.getField "content"
    | none => none
  | _ => none

/-- The string branch of the content decode: parse when the trimmed string
is non-empty, throw on a parse failure, otherwise keep the empty object. -/
def contentOfStr (s : String) : Except String Json :=
  if jsTrim s ≠ "" then
    match jsonParse s with
    | some j => .ok j
    | none => .error "AI returned content that is not valid JSON"
  else .ok (Json.obj [])

/-- Lines 133-144 of `extraction.ts`: `content` starts as the empty object
and is replaced by `JSON.parse(contentRaw)` only when `contentRaw` is a
string whose trimmed length is non-zero; a parse failure there is thrown. -/
def getContent (envelope : Json) : Except String Json :=
  match contentRaw envelope with
  | some (.str s) => contentOfStr s
  | _ => .ok (Json.obj [])

/-- The whole response-to-entities path of `extractEntitiesFromText`,
beginning after the HTTP transport succeeded: decode the envelope content,
validate it against the schema, and normalize each entity. -/
def extractEntities (ids : Nat → String) (envelope : Json) :
    Except String (List MicrobialEntity) :=
  match getContent envelope with
  | .error e => .error e
  | .ok content => normalizeContent ids content

/-! ## The record builder (`buildExtractionRecord`) -/

/-- The `ExtractionSummary` interface of `types/extraction.ts`. -/
structure ExtractionSummary where
  organismCount : Nat
  uniqueSpecies : Nat
  resistanceCount : Nat
  sourceCount : Nat
  pathogenicityCount : Nat
  keyFindings : List String
deriving DecidableEq

/-- The `ExtractionRecord` interface of `types/extraction.ts`.
`rawTextPreview` is kept as the UTF-16 code-unit list because
`String.prototype.slice` can split a surrogate pair, producing a JavaScript
string with no scalar-value reading. -/
structure ExtractionRecord where
  id : String
  fileName : String
  fileSize : Int
  processedAt : String
  durationMs : Int
  summary : ExtractionSummary
  entities : List MicrobialEntity
  rawTextPreview : List Nat
deriving DecidableEq

/-- JavaScript `Array.prototype.join(" ")`. -/
def joinSp : List String → String
  | [] => ""
  | [s] => s
  | s :: rest => s ++ " " ++ joinSp rest

/-- JavaScript truthiness of an optional string: `null`/`undefined` and the
empty string are falsy. -/
def isTruthyStr : Option String → Bool
  | some s => s ≠ ""
  | none => false

/-- One element of the `uniqueSpecies` set:
`[entity.genus, entity.species].filter(Boolean).join(" ") || null`. -/
def speciesKey (e : MicrobialEntity) : Option String :=
  let s := joinSp (([e.genus, e.species].reduceOption).filter (fun t => t ≠ ""))
  if s = "" then none else some s

/-- One `keyFindings` label:
`[entity.genus, entity.species, entity.strain].filter(Boolean).join(" ")
|| "未命名实体"`. -/
def keyFindingLabel (e : MicrobialEntity) : String :=
  let s := joinSp (([e.genus, e.species, e.strain].reduceOption).filter (fun t => t ≠ ""))
  if s = "" then "未命名实体" else s

/-- The length used by the `resistanceCount` reducer:
`entity.resistance?.length ?? 0`. -/
def resistanceLen (e : MicrobialEntity) : Nat :=
  match e.resistance with
  | some xs => xs.length
  | none => 0

/-- The host's `new Date(ms).toISOString()` is an external builtin; no claim
depends on its exact format, so it is modelled as the decimal timestamp. -/
def toISOString (ms : Int) : String :=
  intDec ms

/-- `buildExtractionRecord` of `extraction.ts`: aggregates the summary
statistics, truncates the preview with `rawText.slice(0, 600)` (a UTF-16
code-unit slice), and stamps the record with a fresh id `rid` (the external
`crypto.randomUUID()`). -/
def buildExtractionRecord (rid fileName : String) (fileSize startedAt finishedAt : Int)
    (entities : List MicrobialEntity) (rawText : String) : ExtractionRecord :=
  { id := rid
    fileName := fileName
    fileSize := fileSize
    processedAt := toISOString finishedAt
    durationMs := finishedAt - startedAt
    summary :=
      { organismCount := entities.length
        uniqueSpecies := ((entities.map speciesKey).reduceOption).dedup.length
        resistanceCount := entities.foldl (fun acc e => acc + resistanceLen e) 0
        sourceCount := (entities.filter (fun e => isTruthyStr e.source)).length
        pathogenicityCount := (entities.filter (fun e => isTruthyStr e.pathogenicity)).length
        keyFindings := (entities.take 5).map keyFindingLabel }
    entities := entities
    rawTextPreview := (utf16Encode rawText).take 600 }

/-! ## The history loader (`loadStoredRecords` in `storage.ts`)

`load` reads the raw string at the records key (modelled as
`Option String`: `localStorage.getItem` yields `null` for an absent key; a
non-browser context, where the function returns the empty list before even
reading, is subsumed by the `none` case).  The `JSON.parse` call sits in a
`try`/`catch` whose handler returns the empty list, and a parsed value that
is not an array is replaced by the empty list; the raw array elements are
returned without any further shape validation (the `as ExtractionRecord[]`
in the source is only a type assertion). -/
def loadStoredRecords (raw : Option String) : List Json :=
  match raw with
  | none => []
  | some s =>
    if s = "" then []
    else
      match jsonParse s with
      | none => []
      | some (.arr xs) => xs
      | some _ => []

/-! ## The export encoder (`download.ts`) -/

/-- The JavaScript regex literal `/\\.pdf$/i` from `download.ts`: `\\`
matches one literal backslash, `.` any character other than a line
terminator, and `pdf` matches case-insensitively at the end of the
string. -/
def matchesDblBackslashPdf (cs : List Char) : Bool :=
  match cs with
  | [a, b, p, d, f] =>
    a = '\\' && !(b = '\n' || b = '\r' || b = Char.ofNat 0x2028 || b = Char.ofNat 0x2029) &&
      (p = 'p' || p = 'P') && (d = 'd' || d = 'D') && (f = 'f' || f = 'F')
  | _ => false

/-- `fileName.replace(/\\.pdf$/i, "")`: remove the five matched trailing
characters when the regex matches, otherwise return the string unchanged. -/
def stripPdfName (s : String) : String :=
  let cs := s.data
  if 5 ≤ cs.length ∧ matchesDblBackslashPdf (cs.drop (cs.length - 5)) then
    String.mk (cs.take (cs.length - 5))
  else s

/-- The download name produced by `downloadRecordAsJson`. -/
def jsonExportName (record : ExtractionRecord) : String :=
  stripPdfName record.fileName ++ "-micr-ai.json"

/-- The download name produced by `downloadRecordAsCsv`. -/
def csvExportName (record : ExtractionRecord) : String :=
  stripPdfName record.fileName ++ "-micr-ai.csv"

/-- The fixed CSV header row of `downloadRecordAsCsv`. -/
def csvHeaders : List String :=
  ["genus", "species", "subspecies", "serovar", "strain", "mlst_st",
   "taxonomy_id", "source", "resistance", "pathogenicity", "context",
   "confidence"]

/-- The dynamic value `(entity as Record<string, unknown>)[header]` as seen
by the cell encoder: an array, a string, a number, or a nullish value. -/
inductive CellVal where
  | null : CellVal
  | str (s : String) : CellVal
  | num (q : ℚ) : CellVal
  | arr (xs : List String) : CellVal
deriving DecidableEq

def optCell : Option String → CellVal
  | some s => .str s
  | none => .null

/-- Field dispatch of the cell encoder over the twelve headers; an unknown
header reads an absent property, i.e. a nullish value. -/
def cellValue (e : MicrobialEntity) (h : String) : CellVal :=
  if h = "genus" then optCell e.genus
  else if h = "species" then optCell e.species
  else if h = "subspecies" then optCell e.subspecies
  else if h = "serovar" then optCell e.serovar
  else if h = "strain" then optCell e.strain
  else if h = "mlst_st" then optCell e.mlst_st
  else if h = "taxonomy_id" then optCell e.taxonomy_id
  else if h = "source" then optCell e.source
  else if h = "resistance" then
    match e.resistance with
    | some xs => .arr xs
    | none => .null
  else if h = "pathogenicity" then optCell e.pathogenicity
  else if h = "context" then optCell e.context
  else if h = "confidence" then
    match e.confidence with
    | some q => .num q
    | none => .null
  else .null

/-- `.replace(/"/g, '""')`: double every double-quote. -/
def dq (s : String) : String :=
  String.join (s.data.map (fun c => if c = '"' then "\"\"" else String.singleton c))

/-- JavaScript `Array.prototype.join("; ")`. -/
def joinSemi : List String → String
  | [] => ""
  | [s] => s
  | s :: rest => s ++ "; " ++ joinSemi rest

/-- One CSV cell, per the branches of `downloadRecordAsCsv`: an array is
joined with a semicolon-space, quote-escaped and always wrapped in quotes;
a nullish value is the empty cell; any other value is stringified,
quote-escaped and wrapped in quotes exactly when it contains a comma or a
newline. -/
def encodeCell : CellVal → String
  | .arr xs => "\"" ++ dq (joinSemi xs) ++ "\""
  | .null => ""
  | .str s =>
    let t := dq s
    if t.data.contains ',' || t.data.contains '\n' then "\"" ++ t ++ "\"" else t
  | .num q =>
    let t := dq (jsNumToString q)
    if t.data.contains ',' || t.data.contains '\n' then "\"" ++ t ++ "\"" else t

/-- One CSV data row: the twelve cells of one entity joined with commas. -/
def csvRow (e : MicrobialEntity) : String :=
  String.intercalate "," (csvHeaders.map (fun h => encodeCell (cellValue e h)))

/-- The whole CSV payload: header row then one row per entity, joined with
newlines. -/
def csvContent (record : ExtractionRecord) : String :=
  String.intercalate "\n"
    (String.intercalate "," csvHeaders :: record.entities.map csvRow)

/-! ## Specification-side statements of the §4.1 coercion rules

The following functions restate, directly over the raw JSON entity, the
field-coercion rules claimed by the specification ("string fields trimmed
or null, taxonomy_id stringified or null, resistance coerced ... with falsy
entries removed, context replaced by its snippet string or null").  The
refinement theorems below compare the composition schema-parse-then-map
from the source against these direct rules. -/

/-- Claimed rule for the eight trimmed string fields. -/
def strCoerce (e : Json) (k : String) : Option String :=
  match e.getField k with
  | some (.str s) => some (jsTrim s)
  | _ => none

/-- Claimed rule for `taxonomy_id` (stringified under a truthiness guard,
else null). -/
def taxoCoerce (e : Json) : Option String :=
  match e.getField "taxonomy_id" with
  | some (.str s) => if s = "" then none else some s
  | some (.num q) => if q = 0 then none else some (jsNumToString q)
  | _ => none

def jsonAsStr : Json → Option String
  | .str s => some s
  | _ => none

/-- Claimed rule for `resistance`: single string or list of strings to a
list with falsy entries removed; absent or null to the empty list. -/
def resCoerce (e : Json) : List String :=
  match e.getField "resistance" with
  | some (.arr xs) => (xs.filterMap jsonAsStr).filter (fun s => s ≠ "")
  | some (.str s) => if s = "" then [] else [s]
  | _ => []

/-- Claimed rule for `context`: its `snippet` string, or null. -/
def ctxCoerce (e : Json) : Option String :=
  match e.getField "context" with
  | some (.obj fields) =>
    match lookupLast "snippet" fields with
    | some (.str s) => some s
    | _ => none
  | _ => none

/-- Claimed rule for `confidence`: the validated number, or null. -/
def confCoerce (e : Json) : Option ℚ :=
  match e.getField "confidence" with
  | some (.num q) => some q
  | _ => none

/-- One output entity as the claimed coercion rules describe it, built
directly from the raw JSON entity and a fresh id.  The raw `note` field
appears nowhere: it is discarded. -/
def coerceSpecEntity (id : String) (e : Json) : MicrobialEntity :=
  { id := id
    genus := strCoerce e "genus"
    species := strCoerce e "species"
    subspecies := strCoerce e "subspecies"
    serovar := strCoerce e "serovar"
    strain := strCoerce e "strain"
    mlst_st := strCoerce e "mlst_st"
    taxonomy_id := taxoCoerce e
    source := strCoerce e "source"
    resistance := some (resCoerce e)
    pathogenicity := strCoerce e "pathogenicity"
    context := ctxCoerce e
    confidence := confCoerce e }

/-- The claimed output list: one coerced entity per raw input entity, in
input order, with position-indexed fresh ids. -/
def coerceAll (ids : Nat → String) : Nat → List Json → List MicrobialEntity
  | _, [] => []
  | i, e :: es => coerceSpecEntity (ids i) e :: coerceAll ids (i + 1) es

/-- Whether an `Except` computation succeeded. -/
def isOkE : Except String α → Bool
  | .ok _ => true
  | .error _ => false

/-! ## Inversion helpers -/

theorem except_bind_ok {α β : Type} {x : Except String α} {f : α → Except String β}
    {b : β} (h : (x >>= f) = .ok b) : ∃ a, x = .ok a ∧ f a = .ok b := by
  cases x with
  | error e => exact absurd h (by simp [Bind.bind, Except.bind])
  | ok a => exact ⟨a, rfl, by simpa [Bind.bind, Except.bind] using h⟩

theorem mapE_ok_mem {f : α → Except String β} {l : List α} {bs : List β}
    (h : mapE f l = .ok bs) {a : α} (ha : a ∈ l) : ∃ b, f a = .ok b := by
  induction l generalizing bs with
  | nil => cases ha
  | cons x xs ih =>
    rw [mapE] at h
    cases hx : f x with
    | error e => rw [hx] at h; cases h
    | ok b =>
      rw [hx] at h
      cases hxs : mapE f xs with
      | error e => rw [hxs] at h; cases h
      | ok bs2 =>
        rcases List.mem_cons.mp ha with rfl | ha2
        · exact ⟨b, hx⟩
        · exact ih hxs ha2

theorem parseTrimmedStr_ok {j : Json} {k : String} {v : Option String}
    (h : parseTrimmedStr j k = .ok v) : v = strCoerce j k := by
  unfold parseTrimmedStr at h
  unfold strCoerce
  cases hg : j.getField k with
  | none => rw [hg] at h; cases h; rfl
  | some w =>
    rw [hg] at h
    cases w <;> simp_all

theorem parseTaxonomy_ok {j : Json} {t : Option (String ⊕ ℚ)}
    (h : parseTaxonomy j = .ok t) : taxoNorm t = taxoCoerce j := by
  unfold parseTaxonomy at h
  unfold taxoCoerce
  split at h <;> cases h <;> simp_all [taxoNorm]

theorem mapE_parseStrElem_ok {xs : List Json} {ss : List String}
    (h : mapE parseStrElem xs = .ok ss) : ss = xs.filterMap jsonAsStr := by
  induction xs generalizing ss with
  | nil => rw [mapE] at h; cases h; rfl
  | cons x rest ih =>
    rw [mapE] at h
    cases hx : parseStrElem x with
    | error e => rw [hx] at h; cases h
    | ok s =>
      rw [hx] at h
      cases hrest : mapE parseStrElem rest with
      | error e => rw [hrest] at h; cases h
      | ok ss2 =>
        rw [hrest] at h
        cases h
        cases x <;> simp_all [parseStrElem, List.filterMap_cons, jsonAsStr]

theorem parseResistance_ok {j : Json} {r : Option (List String ⊕ String)}
    (h : parseResistance j = .ok r) : resNorm r = resCoerce j := by
  unfold parseResistance at h
  unfold resCoerce
  split at h
  · cases h; simp_all [resNorm]
  · cases h; simp_all [resNorm]
  case _ xs _ =>
    cases hm : mapE parseStrElem xs with
    | error e => rw [hm] at h; cases h
    | ok ss =>
      rw [hm] at h
      cases h
      simp_all [resNorm, mapE_parseStrElem_ok hm]
  · cases h; simp_all [resNorm]
  · cases h

theorem parseContext_ok {j : Json} {v : Option String}
    (h : parseContext j = .ok v) : v = ctxCoerce j := by
  unfold parseContext at h
  unfold ctxCoerce
  split at h
  · cases h; simp_all
  · cases h; simp_all
  · split at h
    · cases h; simp_all
    · cases h
    · cases h
  · cases h

theorem parseConfidence_ok {j : Json} {v : Option ℚ}
    (h : parseConfidence j = .ok v) : v = confCoerce j := by
  unfold parseConfidence at h
  unfold confCoerce
  split at h
  · cases h; simp_all
  · cases h; simp_all
  · rename_i q heq
    by_cases h0 : q < 0
    · simp [h0] at h
    · by_cases h1 : (1 : ℚ) < q
      · simp [h0, h1] at h
      · simp [h0, h1] at h; simp_all
  · cases h

/-- Inverting a successful `entitySchema` parse into the thirteen
per-field parses. -/
theorem parseEntity_ok_inv {e : Json} {pe : ParsedEntity}
    (h : parseEntity e = .ok pe) :
    parseTrimmedStr e "genus" = .ok pe.genus ∧
    parseTrimmedStr e "species" = .ok pe.species ∧
    parseTrimmedStr e "subspecies" = .ok pe.subspecies ∧
    parseTrimmedStr e "serovar" = .ok pe.serovar ∧
    parseTrimmedStr e "strain" = .ok pe.strain ∧
    parseTrimmedStr e "mlst_st" = .ok pe.mlst_st ∧
    parseTaxonomy e = .ok pe.taxonomy_id ∧
    parseTrimmedStr e "source" = .ok pe.source ∧
    parseResistance e = .ok pe.resistance ∧
    parseTrimmedStr e "pathogenicity" = .ok pe.pathogenicity ∧
    parseContext e = .ok pe.context ∧
    parseConfidence e = .ok pe.confidence ∧
    parseNote e = .ok pe.note := by
  cases e with
  | obj fields =>
    rw [parseEntity] at h
    obtain ⟨g, hg, h⟩ := except_bind_ok h
    obtain ⟨sp, hsp, h⟩ := except_bind_ok h
    obtain ⟨ssp, hssp, h⟩ := except_bind_ok h
    obtain ⟨sv, hsv, h⟩ := except_bind_ok h
    obtain ⟨st, hst, h⟩ := except_bind_ok h
    obtain ⟨ml, hml, h⟩ := except_bind_ok h
    obtain ⟨tx, htx, h⟩ := except_bind_ok h
    obtain ⟨so, hso, h⟩ := except_bind_ok h
    obtain ⟨re, hre, h⟩ := except_bind_ok h
    obtain ⟨pa, hpa, h⟩ := except_bind_ok h
    obtain ⟨cx, hcx, h⟩ := except_bind_ok h
    obtain ⟨cf, hcf, h⟩ := except_bind_ok h
    obtain ⟨nt, hnt, h⟩ := except_bind_ok h
    cases h
    exact ⟨hg, hsp, hssp, hsv, hst, hml, htx, hso, hre, hpa, hcx, hcf, hnt⟩
  | null => cases h
  | bool b => cases h
  | num q => cases h
  | str s => cases h
  | arr xs => cases h

/-- A successfully parsed entity normalizes exactly as the claimed §4.1
coercion rules describe, directly in terms of the raw JSON fields. -/
theorem normalizeEntity_eq_coerceSpec {e : Json} {pe : ParsedEntity} (id : String)
    (h : parseEntity e = .ok pe) :
    normalizeEntity id pe = coerceSpecEntity id e := by
  obtain ⟨hg, hsp, hssp, hsv, hst, hml, htx, hso, hre, hpa, hcx, hcf, hnt⟩ :=
    parseEntity_ok_inv h
  unfold normalizeEntity coerceSpecEntity
  rw [parseTrimmedStr_ok hg, parseTrimmedStr_ok hsp, parseTrimmedStr_ok hssp,
    parseTrimmedStr_ok hsv, parseTrimmedStr_ok hst, parseTrimmedStr_ok hml,
    parseTaxonomy_ok htx, parseTrimmedStr_ok hso, parseResistance_ok hre,
    parseTrimmedStr_ok hpa, parseContext_ok hcx, parseConfidence_ok hcf]

/-- Lifting the per-entity statement along the fresh-id supply: the
normalizer's output list is, position by position, the claimed coercion of
the raw entity list. -/
theorem withIds_eq_coerceAll {es : List Json} {pes : List ParsedEntity}
    (h : mapE parseEntity es = .ok pes) (ids : Nat → String) :
    ∀ i, withIds ids i pes = coerceAll ids i es := by
  induction es generalizing pes with
  | nil => rw [mapE] at h; cases h; intro i; rfl
  | cons e rest ih =>
    rw [mapE] at h
    cases he : parseEntity e with
    | error msg => rw [he] at h; cases h
    | ok pe =>
      rw [he] at h
      cases hrest : mapE parseEntity rest with
      | error msg => rw [hrest] at h; cases h
      | ok pes2 =>
        rw [hrest] at h
        cases h
        intro i
        rw [withIds, coerceAll, normalizeEntity_eq_coerceSpec (ids i) he,
          ih hrest (i + 1)]

/-- Inverting a successful `extractionSchema` parse when the raw document
carries an `entities` array. -/
theorem parseExtraction_ok_inv {doc : Json} {es : List Json} {pes : List ParsedEntity}
    (hdoc : doc.getField "entities" = some (Json.arr es))
    (hok : parseExtraction doc = .ok pes) :
    mapE parseEntity es = .ok pes := by
  obtain ⟨fields, rfl⟩ := getField_some_obj hdoc
  rw [parseExtraction] at hok
  rw [hdoc] at hok
  obtain ⟨ents, hents, hok⟩ := except_bind_ok hok
  obtain ⟨u, hu, hok⟩ := except_bind_ok hok
  cases hok
  exact hents

/-- The normalizer map itself is total, so the whole normalization succeeds
exactly when the schema parse does. -/
theorem normalizeContent_isOk {ids : Nat → String} {content : Json} :
    isOkE (normalizeContent ids content) = isOkE (parseExtraction content) := by
  unfold normalizeContent
  cases h : parseExtraction content <;> rfl

/-! ## Claim theorems -/

/-- A deterministic stand-in for the external `crypto.randomUUID()` supply,
used by the concrete witnesses. -/
def idsW : Nat → String := fun n => "uuid-" ++ natDec n

/-- C1: for every raw model response (already decoded to JSON) whose
`entities` array contains some entity carrying a `confidence` number
outside the closed interval [0,1], normalization of the whole document
fails with a validation error: no entity list is returned and the value is
never clamped. -/
theorem confidence_out_of_range_fails_document (ids : Nat → String) {doc : Json}
    {es : List Json} {e : Json} {q : ℚ}
    (hdoc : doc.getField "entities" = some (Json.arr es))
    (hmem : e ∈ es)
    (hconf : e.getField "confidence" = some (Json.num q))
    (hq : q < 0 ∨ 1 < q) :
    isOkE (normalizeContent ids doc) = false := by
  rw [normalizeContent_isOk]
  cases hpe : parseExtraction doc with
  | error msg => rfl
  | ok pes =>
    exfalso
    have hmap := parseExtraction_ok_inv hdoc hpe
    obtain ⟨pe, hpeok⟩ := mapE_ok_mem hmap hmem
    obtain ⟨-, -, -, -, -, -, -, -, -, -, -, hcf, -⟩ := parseEntity_ok_inv hpeok
    rw [parseConfidence] at hcf
    rw [hconf] at hcf
    rcases hq with hq | hq
    · simp [hq] at hcf
    · have h0 : ¬ q < 0 := by linarith
      simp [h0, hq] at hcf

/-- Witness for C1 at a concrete document whose single entity has
confidence 2. -/
theorem confidence_out_of_range_fails_document_witness :
    isOkE (normalizeContent idsW
      (Json.obj [("entities",
        Json.arr [Json.obj [("genus", Json.str "Escherichia"),
                            ("confidence", Json.num 2)]])])) = false :=
  confidence_out_of_range_fails_document idsW rfl
    (List.mem_singleton.mpr rfl) rfl (Or.inr (by norm_num))

/-- C2: for every raw model response conforming to the expected shape
(the schema parse succeeds) whose document carries an `entities` array,
normalization returns exactly one output entity per input entity object, in
input order, each stamped with the freshly generated id for its position
(ids are supplied by the external generator, never read from the input,
whose `id` key the schema does not even inspect), with every field coerced
per the claimed rules: string fields trimmed or null, `taxonomy_id`
stringified or null, `resistance` a list with falsy entries removed
(absent/null becoming the empty list), `context` replaced by its snippet
string or null, and the raw `note` field discarded (the output type has no
such field).  `coerceAll` is the direct transcription of those rules. -/
theorem normalization_shape_and_coercions (ids : Nat → String) {doc : Json}
    {es : List Json} {pes : List ParsedEntity}
    (hdoc : doc.getField "entities" = some (Json.arr es))
    (hok : parseExtraction doc = .ok pes) :
    normalizeContent ids doc = .ok (coerceAll ids 0 es) := by
  unfold normalizeContent
  rw [hok]
  exact congrArg Except.ok (withIds_eq_coerceAll (parseExtraction_ok_inv hdoc hok) ids 0)

/-- The raw entities of the C2 witness document: one entity exercising
trimming, numeric taxonomy ids, falsy resistance filtering, context
snippets, confidence and the discarded note; one entity exercising the
falsy string taxonomy id and the single-string resistance. -/
def entsC2 : List Json :=
  [Json.obj [("genus", Json.str "  Salmonella "),
             ("species", Json.null),
             ("taxonomy_id", Json.num 28901),
             ("resistance", Json.arr [Json.str "a", Json.str "", Json.str "b"]),
             ("context", Json.obj [("snippet", Json.str "snip")]),
             ("confidence", Json.num 1),
             ("note", Json.str "dropped"),
             ("id", Json.str "model-supplied-id")],
   Json.obj [("taxonomy_id", Json.str ""),
             ("resistance", Json.str "amp")]]

def docC2 : Json :=
  Json.obj [("entities", Json.arr entsC2),
            ("summary", Json.obj [("key_findings", Json.arr [Json.str "kf"])])]

/-- The parsed form of `entsC2` under the zod schema model. -/
def pesC2 : List ParsedEntity :=
  [{ genus := some "Salmonella", species := none,
     taxonomy_id := some (.inr 28901),
     resistance := some (.inl ["a", "", "b"]),
     context := some "snip", confidence := some 1,
     note := some "dropped" },
   { taxonomy_id := some (.inl ""), resistance := some (.inr "amp") }]

set_option maxRecDepth 40000 in
/-- Witness for C2: the concrete document normalizes to exactly the two
coerced entities, with position-indexed fresh ids. -/
theorem normalization_shape_and_coercions_witness :
    normalizeContent idsW docC2 =
      Except.ok
        [{ id := "uuid-0", genus := some "Salmonella",
           taxonomy_id := some "28901", resistance := some ["a", "b"],
           context := some "snip", confidence := some 1 },
         { id := "uuid-1", resistance := some ["amp"] }] :=
  (normalization_shape_and_coercions idsW
      (rfl : docC2.getField "entities" = some (Json.arr entsC2))
      (rfl : parseExtraction docC2 = Except.ok pesC2)).trans (by rfl)

theorem foldl_add_resistanceLen (l : List MicrobialEntity) :
    ∀ acc : Nat, l.foldl (fun a e => a + resistanceLen e) acc
      = acc + (l.map resistanceLen).sum := by
  induction l with
  | nil => intro acc; simp
  | cons e rest ih =>
    intro acc
    simp only [List.foldl_cons, List.map_cons, List.sum_cons, ih, Nat.add_assoc]

/-- C3: for any entity list (and any metadata), the summary of the built
record has `organismCount` equal to the list length, `uniqueSpecies` at
most `organismCount`, and `resistanceCount` equal to the sum over all
entities of the length of their resistance list, an entity without a
resistance list contributing 0. -/
theorem summary_count_invariants (rid fileName : String)
    (fileSize startedAt finishedAt : Int)
    (entities : List MicrobialEntity) (rawText : String) :
    (buildExtractionRecord rid fileName fileSize startedAt finishedAt entities
        rawText).summary.organismCount = entities.length ∧
    (buildExtractionRecord rid fileName fileSize startedAt finishedAt entities
        rawText).summary.uniqueSpecies ≤ entities.length ∧
    (buildExtractionRecord rid fileName fileSize startedAt finishedAt entities
        rawText).summary.resistanceCount =
      (entities.map (fun e => (e.resistance.getD []).length)).sum := by
  refine ⟨rfl, ?_, ?_⟩
  · show ((entities.map speciesKey).reduceOption).dedup.length ≤ entities.length
    calc ((entities.map speciesKey).reduceOption).dedup.length
        ≤ ((entities.map speciesKey).reduceOption).length :=
          (List.dedup_sublist _).length_le
      _ ≤ (entities.map speciesKey).length := List.reduceOption_length_le _
      _ = entities.length := List.length_map _ _
  · show entities.foldl (fun a e => a + resistanceLen e) 0 = _
    rw [foldl_add_resistanceLen entities 0, Nat.zero_add]
    have hfun : resistanceLen = fun e => (e.resistance.getD []).length := by
      funext e
      cases h : e.resistance <;> simp [resistanceLen, h]
    rw [hfun]

/-- The C4 counterexample text: 301 astral-plane characters, hence 301
Unicode scalar values but 602 UTF-16 code units. -/
def rawC4 : String := String.mk (List.replicate 301 (Char.ofNat 0x1F600))

set_option maxRecDepth 40000 in
/-- Counterexample to C4 as stated: `rawC4` has only 301 characters counted
in Unicode scalar units, so under the claim its preview would be the whole
text unchanged; the code's `slice(0, 600)` counts UTF-16 code units and
truncates it. -/
theorem preview_not_scalar_counted :
    rawC4.data.length ≤ 600 ∧
    (buildExtractionRecord "r" "f.pdf" 1 0 0 [] rawC4).rawTextPreview ≠
      utf16Encode (String.mk (rawC4.data.take 600)) := by
  constructor
  · decide
  · decide

set_option maxRecDepth 40000 in
/-- C4 (amended): the record builder sets `rawTextPreview` to the first 600
UTF-16 code units of `rawText`; text of at most 600 code units is preserved
unchanged. -/
theorem preview_first_600_code_units (rid fileName : String)
    (fileSize startedAt finishedAt : Int)
    (entities : List MicrobialEntity) (rawText : String) :
    (buildExtractionRecord rid fileName fileSize startedAt finishedAt entities
        rawText).rawTextPreview = (utf16Encode rawText).take 600 ∧
    ((utf16Encode rawText).length ≤ 600 →
      (buildExtractionRecord rid fileName fileSize startedAt finishedAt entities
          rawText).rawTextPreview = utf16Encode rawText) := by
  refine ⟨rfl, fun h => ?_⟩
  show (utf16Encode rawText).take 600 = utf16Encode rawText
  exact List.take_of_length_le h

/-- Witness for C4 (amended) at a two-character text, preserved whole. -/
theorem preview_first_600_code_units_witness :
    (buildExtractionRecord "r" "f" 0 0 0 [] "ab").rawTextPreview =
      utf16Encode "ab" :=
  (preview_first_600_code_units "r" "f" 0 0 0 [] "ab").2 (by decide)

/-- A record named `report.pdf`, as produced for a typical upload. -/
def recC5 : ExtractionRecord :=
  { id := "r", fileName := "report.pdf", fileSize := 1024, processedAt := "0",
    durationMs := 5, summary := ⟨0, 0, 0, 0, 0, []⟩, entities := [],
    rawTextPreview := [] }

/-- C5 (code bug): the export file names do not strip the `.pdf`
extension.  The regex literal `/\\.pdf$/i` in `download.ts` contains a
double-escaped backslash, so it matches a literal backslash, any character
and `pdf` - which `report.pdf` does not end with - and the claimed and
documented stripping never happens for ordinary file names. -/
theorem export_names_keep_pdf_extension :
    jsonExportName recC5 = "report.pdf-micr-ai.json" ∧
    csvExportName recC5 = "report.pdf-micr-ai.csv" ∧
    jsonExportName recC5 ≠ "report-micr-ai.json" := by
  refine ⟨by decide, by decide, by decide⟩

/-- The ten string-valued scalar columns of the CSV table. -/
def scalarStringHeaders : List String :=
  ["genus", "species", "subspecies", "serovar", "strain", "mlst_st",
   "taxonomy_id", "source", "pathogenicity", "context"]

/-- The entity field behind each string-valued scalar column. -/
def scalarField (e : MicrobialEntity) : String → Option String
  | "genus" => e.genus
  | "species" => e.species
  | "subspecies" => e.subspecies
  | "serovar" => e.serovar
  | "strain" => e.strain
  | "mlst_st" => e.mlst_st
  | "taxonomy_id" => e.taxonomy_id
  | "source" => e.source
  | "pathogenicity" => e.pathogenicity
  | "context" => e.context
  | _ => none

/-- The claimed scalar-cell rule: double internal double-quotes first, then
wrap in quotes exactly when the cell contains a comma or a newline. -/
def scalarRule (s : String) : String :=
  let t := dq s
  if t.data.contains ',' || t.data.contains '\n' then "\"" ++ t ++ "\"" else t

/-- An entity whose optional `resistance` list is absent, as the
`MicrobialEntity` interface allows (for example a record deserialized from
an older persisted blob). -/
def entC6none : MicrobialEntity := { id := "x" }

/-- Counterexample to C6 as stated: for an entity without a resistance
list, the resistance cell is the empty unquoted cell, not a quoted cell
(the quoted empty join would be a two-character cell of two quotes). -/
theorem resistance_cell_unquoted_when_absent :
    encodeCell (cellValue entC6none "resistance") = "" ∧
    encodeCell (cellValue entC6none "resistance") ≠ "\"\"" :=
  ⟨by decide, by decide⟩

/-- C6 (amended): in every entity row of the CSV export, the resistance
cell is quoted whenever the resistance list is present (the normalizer
always supplies one), with elements joined by a semicolon and space and
internal double-quotes doubled; an absent resistance list renders, like any
nullish value, as an empty unquoted cell; a null/absent scalar field
renders as an empty unquoted cell; and any other scalar cell first has its
internal double-quotes doubled and is then wrapped in quotes exactly when
it contains a comma or a newline. -/
theorem csv_cell_encoding (e : MicrobialEntity) :
    (∀ xs, e.resistance = some xs →
      encodeCell (cellValue e "resistance") = "\"" ++ dq (joinSemi xs) ++ "\"") ∧
    (e.resistance = none → encodeCell (cellValue e "resistance") = "") ∧
    (∀ h, h ∈ scalarStringHeaders → scalarField e h = none →
      encodeCell (cellValue e h) = "") ∧
    (∀ h s, h ∈ scalarStringHeaders → scalarField e h = some s →
      encodeCell (cellValue e h) = scalarRule s) ∧
    (e.confidence = none → encodeCell (cellValue e "confidence") = "") ∧
    (∀ q, e.confidence = some q →
      encodeCell (cellValue e "confidence") = scalarRule (jsNumToString q)) := by
  refine ⟨?_, ?_, ?_, ?_, ?_, ?_⟩
  · intro xs hxs; simp [cellValue, hxs, encodeCell]
  · intro hnone; simp [cellValue, hnone, encodeCell]
  · intro h hmem hval
    fin_cases hmem <;> simp_all [cellValue, scalarField, optCell, encodeCell]
  · intro h s hmem hval
    fin_cases hmem <;>
      simp_all [cellValue, scalarField, optCell, encodeCell, scalarRule]
  · intro hnone; simp [cellValue, hnone, encodeCell]
  · intro q hq; simp [cellValue, hq, encodeCell, scalarRule]

/-- The C6 witness entities: one with a two-element resistance list and a
comma-carrying source, one with all optional fields absent. -/
def entC6a : MicrobialEntity :=
  { id := "1", source := some "chicken, farm",
    resistance := some ["ampicillin", "tetracycline"] }

def entC6b : MicrobialEntity := { id := "2" }

/-- Witness for C6 (amended) at the spec's own examples: the resistance
list renders as the quoted joined cell, a comma-carrying source is wrapped
in quotes, and a null source renders empty. -/
theorem csv_cell_encoding_witness :
    encodeCell (cellValue entC6a "resistance") = "\"ampicillin; tetracycline\"" ∧
    encodeCell (cellValue entC6a "source") = "\"chicken, farm\"" ∧
    encodeCell (cellValue entC6b "source") = "" := by
  refine ⟨?_, ?_, ?_⟩
  · exact ((csv_cell_encoding entC6a).1 _ rfl).trans (by decide)
  · exact ((csv_cell_encoding entC6a).2.2.2.1 "source" "chicken, farm"
      (by decide) rfl).trans (by decide)
  · exact (csv_cell_encoding entC6b).2.2.1 "source" (by decide) rfl

/-- C7: for every state of the persistent store (absent key, text that is
not JSON, or JSON of the wrong shape), loading the history returns a list
and never raises (the function is total by construction): absent data and
any deserialization failure - including a persisted value that is valid
JSON but not an array - yield the empty list, and a persisted array is
returned as such. -/
theorem load_history_never_raises (raw : Option String) :
    (raw = none → loadStoredRecords raw = []) ∧
    (∀ s, raw = some s → jsonParse s = none → loadStoredRecords raw = []) ∧
    (∀ s j, raw = some s → jsonParse s = some j → j.isArr = false →
      loadStoredRecords raw = []) ∧
    (∀ s xs, raw = some s → jsonParse s = some (Json.arr xs) →
      loadStoredRecords raw = xs) := by
  have hred : ∀ s : String, loadStoredRecords (some s) =
      if s = "" then []
      else
        match jsonParse s with
        | none => []
        | some (Json.arr xs) => xs
        | some _ => [] := fun _ => rfl
  refine ⟨?_, ?_, ?_, ?_⟩
  · rintro rfl; rfl
  · rintro s rfl hp
    rw [hred]
    by_cases hs : s = "" <;> simp [hs, hp]
  · rintro s j rfl hp harr
    rw [hred]
    by_cases hs : s = ""
    · simp [hs]
    · rw [if_neg hs, hp]
      cases j <;> simp_all [Json.isArr]
  · rintro s xs rfl hp
    rw [hred]
    by_cases hs : s = ""
    · subst hs
      rw [show jsonParse "" = none from rfl] at hp
      cases hp
    · simp [hs, hp]

set_option maxRecDepth 10000 in
/-- Witness for C7: an absent key, a non-JSON blob and a JSON object (valid
JSON, wrong shape) each load as the empty history. -/
theorem load_history_never_raises_witness :
    loadStoredRecords none = [] ∧
    loadStoredRecords (some "oops") = [] ∧
    loadStoredRecords (some "{}") = [] :=
  ⟨(load_history_never_raises none).1 rfl,
   (load_history_never_raises (some "oops")).2.1 "oops" rfl (by rfl),
   (load_history_never_raises (some "{}")).2.2.1 "{}" (Json.obj []) rfl
     (by rfl) (by rfl)⟩

/-- The claimed key-finding label: genus, species and strain with the parts
that are absent (or empty, hence unusable) omitted, the rest joined by
single spaces, and the fixed placeholder label for an entity with no usable
parts. -/
def labelSpec (e : MicrobialEntity) : String :=
  let parts := ([e.genus, e.species, e.strain].reduceOption).filter
    (fun t => t ≠ "")
  if parts.isEmpty then "未命名实体" else joinSp parts

theorem joinSp_ne_empty {p : String} {rest : List String} (hp : p ≠ "") :
    joinSp (p :: rest) ≠ "" := by
  cases rest with
  | nil => simpa [joinSp] using hp
  | cons r rs =>
    show p ++ " " ++ joinSp (r :: rs) ≠ ""
    intro h
    have hlen := congrArg String.length h
    rw [String.length_append, String.length_append] at hlen
    have h1 : (" " : String).length = 1 := rfl
    have h2 : ("" : String).length = 0 := rfl
    omega

theorem keyFindingLabel_eq_labelSpec (e : MicrobialEntity) :
    keyFindingLabel e = labelSpec e := by
  unfold keyFindingLabel labelSpec
  cases hp : ([e.genus, e.species, e.strain].reduceOption).filter
      (fun t => t ≠ "") with
  | nil => simp [joinSp]
  | cons p rest =>
    have hpmem : p ∈ ([e.genus, e.species, e.strain].reduceOption).filter
        (fun t => t ≠ "") := hp ▸ List.mem_cons_self p rest
    have hpne : p ≠ "" := by
      have := List.of_mem_filter hpmem
      simpa using this
    rw [if_neg (joinSp_ne_empty hpne)]
    simp

/-- C8: for any entity list, the built record's `keyFindings` has length
`min 5 n`, one label per entity taken in original order from the first
five, each label built per the claimed rule (`labelSpec`). -/
theorem key_findings_shape (rid fileName : String)
    (fileSize startedAt finishedAt : Int)
    (entities : List MicrobialEntity) (rawText : String) :
    (buildExtractionRecord rid fileName fileSize startedAt finishedAt entities
        rawText).summary.keyFindings.length = min 5 entities.length ∧
    (buildExtractionRecord rid fileName fileSize startedAt finishedAt entities
        rawText).summary.keyFindings = (entities.take 5).map labelSpec := by
  constructor
  · show ((entities.take 5).map keyFindingLabel).length = _
    rw [List.length_map, List.length_take]
  · show (entities.take 5).map keyFindingLabel = _
    rw [show keyFindingLabel = labelSpec from funext keyFindingLabel_eq_labelSpec]

theorem natDecAux_zero (fuel : Nat) (acc : List Char) :
    natDecAux fuel 0 acc = acc := by
  cases fuel <;> rfl

theorem natDecAux_min_length (fuel : Nat) :
    ∀ n acc, n ≠ 0 → n ≤ fuel → acc.length + 1 ≤ (natDecAux fuel n acc).length := by
  induction fuel with
  | zero => intro n acc hn hle; omega
  | succ f ih =>
    intro n acc hn hle
    match n, hn with
    | m + 1, hn =>
      rw [natDecAux]
      by_cases hd : (m + 1) / 10 = 0
      · rw [hd, natDecAux_zero]; simp
      · have hlt : (m + 1) / 10 < m + 1 := Nat.div_lt_self (Nat.succ_pos m) (by norm_num)
        have := ih ((m + 1) / 10) (Char.ofNat (48 + (m + 1) % 10) :: acc) hd (by omega)
        simp only [List.length_cons] at this
        omega

theorem natDec_ne_empty (n : Nat) : natDec n ≠ "" := by
  unfold natDec
  by_cases hn : n = 0
  · simp [hn]
  · rw [if_neg hn]
    intro h
    have hdata : natDecAux n n [] = [] := by
      have := congrArg String.data h
      simpa using this
    have hlen := natDecAux_min_length n n [] hn (le_refl n)
    rw [hdata] at hlen
    simp at hlen

theorem natDec_ne_zero_str {n : Nat} (hn : n ≠ 0) : natDec n ≠ "0" := by
  unfold natDec
  rw [if_neg hn]
  intro h
  have hdata : natDecAux n n [] = ['0'] := by
    have := congrArg String.data h
    simpa using this
  match n, hn, hdata with
  | m + 1, hn, hdata =>
    rw [natDecAux] at hdata
    by_cases hd : (m + 1) / 10 = 0
    · rw [hd, natDecAux_zero] at hdata
      have hc : Char.ofNat (48 + (m + 1) % 10) = '0' := by
        simpa using hdata
      have h19a : 1 ≤ (m + 1) % 10 := by omega
      have h19b : (m + 1) % 10 ≤ 9 := by omega
      set r := (m + 1) % 10 with hrdef
      interval_cases r <;> exact absurd hc (by decide)
    · have hlt : (m + 1) / 10 < m + 1 := Nat.div_lt_self (Nat.succ_pos m) (by norm_num)
      have hlen := natDecAux_min_length m ((m + 1) / 10)
        [Char.ofNat (48 + (m + 1) % 10)] hd (by omega)
      rw [hdata] at hlen
      simp at hlen

theorem intDec_ne_empty (i : ℤ) : intDec i ≠ "" := by
  unfold intDec
  split
  · intro h
    have := congrArg String.length h
    rw [String.length_append] at this
    have h1 : ("-" : String).length = 1 := rfl
    have h2 : ("" : String).length = 0 := rfl
    omega
  · exact natDec_ne_empty _

theorem intDec_ne_zero_str {i : ℤ} (hi : i ≠ 0) : intDec i ≠ "0" := by
  unfold intDec
  split
  · intro h
    have hdata := congrArg String.data h
    rw [String.data_append] at hdata
    simp at hdata
  · exact natDec_ne_zero_str (Int.natAbs_ne_zero.mpr hi)

theorem string_ne_empty_length_pos {s : String} (h : s ≠ "") : 1 ≤ s.length := by
  by_contra hlen
  apply h
  have : s.length = 0 := by omega
  have hdata : s.data = [] := List.length_eq_zero.mp this
  cases s
  simp_all

theorem jsNumToString_ne_empty (q : ℚ) : jsNumToString q ≠ "" := by
  unfold jsNumToString
  split
  · exact intDec_ne_empty _
  · intro h
    have := congrArg String.length h
    rw [String.length_append, String.length_append] at this
    have h1 : ("/" : String).length = 1 := rfl
    have h2 : ("" : String).length = 0 := rfl
    omega

theorem jsNumToString_ne_zero_str {q : ℚ} (hq : q ≠ 0) : jsNumToString q ≠ "0" := by
  unfold jsNumToString
  split
  · exact intDec_ne_zero_str (Rat.num_ne_zero.mpr hq)
  · intro h
    have hlen := congrArg String.length h
    rw [String.length_append, String.length_append] at hlen
    have h1 : ("/" : String).length = 1 := rfl
    have h2 : ("0" : String).length = 1 := rfl
    have h3 := string_ne_empty_length_pos (intDec_ne_empty q.num)
    have h4 := string_ne_empty_length_pos (natDec_ne_empty q.den)
    omega

set_option maxRecDepth 10000 in
/-- Counterexample to C9 as stated: a raw entity whose `taxonomy_id` is the
*string* `"0"` is truthy in JavaScript, so the normalizer passes it
through - the normalized `taxonomy_id` can very well be the string `"0"`. -/
theorem taxonomy_string_zero_passes_through :
    normalizeContent idsW
      (Json.obj [("entities",
        Json.arr [Json.obj [("taxonomy_id", Json.str "0")]])]) =
      Except.ok [{ id := "uuid-0", taxonomy_id := some "0",
                   resistance := some [] }] := by rfl

/-- C9 (amended): for every raw entity accepted by the schema, a
`taxonomy_id` that is the number 0 or the empty string normalizes to null
(a truthiness test, not a null test, guards the string conversion); the
normalized `taxonomy_id` is never the empty string; and when the raw value
is a number it is never the string `"0"` (only the raw *string* `"0"`
can produce that output). -/
theorem taxonomy_truthiness_guard (id : String) {e : Json} {pe : ParsedEntity}
    (h : parseEntity e = .ok pe) :
    (e.getField "taxonomy_id" = some (Json.num 0) →
      (normalizeEntity id pe).taxonomy_id = none) ∧
    (e.getField "taxonomy_id" = some (Json.str "") →
      (normalizeEntity id pe).taxonomy_id = none) ∧
    (normalizeEntity id pe).taxonomy_id ≠ some "" ∧
    (∀ q, e.getField "taxonomy_id" = some (Json.num q) →
      (normalizeEntity id pe).taxonomy_id ≠ some "0") := by
  obtain ⟨-, -, -, -, -, -, htx, -, -, -, -, -, -⟩ := parseEntity_ok_inv h
  have hnorm : (normalizeEntity id pe).taxonomy_id = taxoCoerce e :=
    parseTaxonomy_ok htx
  rw [hnorm]
  refine ⟨?_, ?_, ?_, ?_⟩
  · intro hfield; unfold taxoCoerce; rw [hfield]; simp
  · intro hfield; unfold taxoCoerce; rw [hfield]; simp
  · unfold taxoCoerce
    split
    · rename_i s heq
      by_cases hs : s = "" <;> simp [hs]
    · rename_i q heq
      by_cases h0 : q = 0 <;> simp [h0, jsNumToString_ne_empty q]
    · simp
  · intro q hfield
    unfold taxoCoerce
    rw [hfield]
    by_cases h0 : q = 0 <;> simp [h0]
    exact jsNumToString_ne_zero_str h0

/-- The C9 witness: a raw entity with the falsy numeric taxonomy id 0. -/
def entC9 : Json := Json.obj [("taxonomy_id", Json.num 0)]

def peC9 : ParsedEntity := { taxonomy_id := some (.inr 0) }

/-- Witness for C9 (amended): raw numeric taxonomy id 0 normalizes to
null. -/
theorem taxonomy_truthiness_guard_witness :
    (normalizeEntity "u" peC9).taxonomy_id = none :=
  (taxonomy_truthiness_guard "u"
    (rfl : parseEntity entC9 = Except.ok peC9)).1 rfl

theorem getContent_of_empty {env : Json}
    (hm : match contentRaw env with
          | some (Json.str s) => jsTrim s = ""
          | _ => True) :
    getContent env = .ok (Json.obj []) := by
  unfold getContent
  cases hcr : contentRaw env with
  | none => rfl
  | some j =>
    rw [hcr] at hm
    cases j with
    | str s =>
      have hne : ¬ jsTrim s ≠ "" := by simpa using hm
      show contentOfStr s = Except.ok (Json.obj [])
      unfold contentOfStr
      rw [if_neg hne]
    | null => rfl
    | bool b => rfl
    | num q => rfl
    | arr xs => rfl
    | obj fields => rfl

/-- C10: if the response envelope's `choices[0].message.content` is absent,
not a string, or an empty/whitespace-only string, extraction succeeds with
the empty entity list rather than raising; a fatal error is raised only
when the content is a non-empty string that either fails JSON parsing or
parses to a value failing schema validation. -/
theorem extraction_error_conditions (ids : Nat → String) (env : Json) :
    ((match contentRaw env with
      | some (Json.str s) => jsTrim s = ""
      | _ => True) → extractEntities ids env = .ok []) ∧
    (∀ s, contentRaw env = some (Json.str s) → jsTrim s ≠ "" →
      jsonParse s = none → isOkE (extractEntities ids env) = false) ∧
    (∀ s j, contentRaw env = some (Json.str s) → jsTrim s ≠ "" →
      jsonParse s = some j → isOkE (parseExtraction j) = false →
      isOkE (extractEntities ids env) = false) ∧
    (isOkE (extractEntities ids env) = false →
      match contentRaw env with
      | some (Json.str s) => jsTrim s ≠ "" ∧
          (match jsonParse s with
           | none => True
           | some j => isOkE (parseExtraction j) = false)
      | _ => False) := by
  refine ⟨?_, ?_, ?_, ?_⟩
  · intro hm
    unfold extractEntities
    rw [getContent_of_empty hm]
    rfl
  · intro s hcr hne hp
    have hgc : ∃ m, getContent env = .error m := by
      unfold getContent
      rw [hcr]
      show ∃ m, contentOfStr s = Except.error m
      unfold contentOfStr
      rw [if_pos hne, hp]
      exact ⟨_, rfl⟩
    obtain ⟨m, hgc⟩ := hgc
    unfold extractEntities
    rw [hgc]
    rfl
  · intro s j hcr hne hp hfail
    have hgc : getContent env = .ok j := by
      unfold getContent
      rw [hcr]
      show contentOfStr s = Except.ok j
      unfold contentOfStr
      rw [if_pos hne, hp]
    unfold extractEntities
    rw [hgc]
    show isOkE (normalizeContent ids j) = false
    rw [@normalizeContent_isOk ids j]
    exact hfail
  · intro herr
    have hok_of : getContent env = .ok (Json.obj []) →
        isOkE (extractEntities ids env) = true := by
      intro hgc
      unfold extractEntities
      rw [hgc]
      rfl
    cases hcr : contentRaw env with
    | none =>
      rw [hok_of (getContent_of_empty (by rw [hcr]; trivial))] at herr
      cases herr
    | some j =>
      cases j with
      | str s =>
        by_cases hne : jsTrim s = ""
        · rw [hok_of (getContent_of_empty (by rw [hcr]; exact hne))] at herr
          cases herr
        · refine ⟨hne, ?_⟩
          cases hp : jsonParse s with
          | none => trivial
          | some j2 =>
            have hgc : getContent env = .ok j2 := by
              unfold getContent
              rw [hcr]
              show contentOfStr s = Except.ok j2
              unfold contentOfStr
              rw [if_pos hne, hp]
            unfold extractEntities at herr
            rw [hgc] at herr
            have herr2 : isOkE (normalizeContent ids j2) = false := herr
            rw [@normalizeContent_isOk ids j2] at herr2
            exact herr2
      | null =>
        rw [hok_of (getContent_of_empty (by rw [hcr]; trivial))] at herr
        cases herr
      | bool b =>
        rw [hok_of (getContent_of_empty (by rw [hcr]; trivial))] at herr
        cases herr
      | num q =>
        rw [hok_of (getContent_of_empty (by rw [hcr]; trivial))] at herr
        cases herr
      | arr xs =>
        rw [hok_of (getContent_of_empty (by rw [hcr]; trivial))] at herr
        cases herr
      | obj fields =>
        rw [hok_of (getContent_of_empty (by rw [hcr]; trivial))] at herr
        cases herr

set_option maxRecDepth 10000 in
/-- Witness for C10: an envelope with no content at all succeeds with the
empty entity list; an envelope whose content is the non-JSON string "oops"
fails. -/
theorem extraction_error_conditions_witness :
    extractEntities idsW (Json.obj []) = .ok [] ∧
    isOkE (extractEntities idsW
      (Json.obj [("choices", Json.arr
        [Json.obj [("message",
          Json.obj [("content", Json.str "oops")])]])])) = false :=
  ⟨(extraction_error_conditions idsW (Json.obj [])).1 trivial,
   (extraction_error_conditions idsW _).2.1 "oops" rfl (by decide) (by rfl)⟩
